import Mathlib

/-!
Verification of the conversational-context engine: a shallow embedding of the
conversation log (`app/services/conversation_store.py`), the context assembler
and summarization policy (`app/services/chat.py`), the per-user session
registry (`app/telegram/registry.py`), the outbound chunker
(`app/telegram/utils.py`) and the free-text handler
(`app/telegram/handlers.py`), together with theorems settling the frozen
claims about them.
-/

/-- A history record as stored in the JSONL conversation log.  Only the fields
the embedded functions inspect are modelled (`role`, `kind`, `content`); the
remaining JSON fields (`id`, `ts`, `model`, `response_id`, `meta`) are never
read by the code under verification. A user or assistant record carries no
`kind` key, which `m.get("kind")` reads as `None`, hence `kind := none`. -/
structure Rec where
  role : String
  kind : Option String := none
  content : String := ""
deriving DecidableEq

/-- One message of the request body built for the completion client:
`{"role": r, "content": [{"type": t, "text": s}]}`. -/
structure Msg where
  role : String
  ctype : String
  text : String
deriving DecidableEq

/-- The conversation store's on-disk state: one JSONL file (= record list) per
conversation id. -/
abbrev Store := List (String × List Rec)

/-- Association-list lookup by conversation id (the store keeps one file per
conversation id; lookup = does `base_dir/{id}.jsonl` exist and what it holds). -/
def lookupConv : Store → String → Option (List Rec)
  | [], _ => none
  | (k, v) :: rest, c => if k = c then some v else lookupConv rest c

/-- Replace (or create) the record list held for a conversation id. -/
def setConv : Store → String → List Rec → Store
  | [], c, v => [(c, v)]
  | (k, w) :: rest, c, v => if k = c then (c, v) :: rest else (k, w) :: setConv rest c v

/-- `ConversationStore.load`: read every line of the conversation's file;
a conversation with no file yields the empty list and never fails. -/
def ConversationStore.load (s : Store) (conversation_id : String) : List Rec :=
  (lookupConv s conversation_id).getD []

/-- `ConversationStore.append`: open the conversation's file in append mode and
write one record line (creating the file when absent). -/
def ConversationStore.append (s : Store) (conversation_id : String) (record : Rec) : Store :=
  setConv s conversation_id (ConversationStore.load s conversation_id ++ [record])

/-- `ConversationStore.latest_summary`: scan the loaded records from the end
and return the first whose `kind` is `"summary"`. -/
def ConversationStore.latest_summary (recs : List Rec) : Option Rec :=
  recs.reverse.find? (fun r => r.kind == some "summary")

/-- Content of the latest summary record, as `_summarize` reads it
(`summ.get("content") if summ else None`). -/
def latestSummaryContent (recs : List Rec) : Option String :=
  (ConversationStore.latest_summary recs).map (fun r => r.content)

/-- The live-record filter used throughout `chat.py`:
`m.get("role") in \x7b"user", "assistant"\x7d`. -/
def isLive (m : Rec) : Bool := m.role == "user" || m.role == "assistant"

/-- The fold in `_need_summarize` locating the latest live record with
`role == "assistant"` and `kind == "summary"`, as a 1-based position
(`for i, m in enumerate(live, start=1)` keeping the last match; 0 if none). -/
def lastSummaryTurnGo : Nat → Nat → List Rec → Nat
  | _, acc, [] => acc
  | i, acc, m :: rest =>
      lastSummaryTurnGo (i + 1)
        (if m.role == "assistant" && m.kind == some "summary" then i else acc) rest

/-- 1-based position of the last assistant-role, summary-kind record among the
live records (`last_summary_turn` in `_need_summarize`). -/
def lastSummaryTurn (l : List Rec) : Nat := lastSummaryTurnGo 1 0 l

/-- `ChatService._need_summarize`: live count must exceed `keep_last`, then the
trigger is `(assistant_turns - last_summary_turn) >= turns_gap`, computed over
Python ints (hence the `Int` subtraction). -/
def ChatService.need_summarize (history : List Rec) (keep_last turns_gap : Nat) : Bool :=
  let live := history.filter isLive
  if live.length ≤ keep_last then false
  else
    let last_summary_turn := lastSummaryTurn live
    let assistant_turns := (live.filter (fun m => m.role == "assistant")).length
    decide ((turns_gap : Int) ≤ (assistant_turns : Int) - (last_summary_turn : Int))

/-- Python's `l[:-keep]` slice: empty for `keep = 0` (since `l[:0] = []`),
otherwise everything but the last `keep` elements. -/
def pyDropLast (keep : Nat) (l : List Rec) : List Rec :=
  if keep = 0 then [] else l.take (l.length - keep)

/-- Python's `l[-keep:]` slice: the whole list for `keep = 0` (since
`l[-0:] = l[0:] = l`), otherwise the last `keep` elements. -/
def pySliceLast (keep : Nat) (l : List Rec) : List Rec :=
  if keep = 0 then l else l.drop (l.length - keep)

/-- `ChatService._summarize`, with the summarization model call abstracted as
`clientResp` (`none` = the call raised, which the method catches and turns
into `None`; `some raw` = the call returned with `output_text` read back as
`raw`).  Returns the summary text handed to the message builder together with
the summary record appended to the log, if any.  The transcript flattening and
its `2 * limit` cutoff only shape the abstracted model input, so they are not
re-modelled here. -/
def ChatService.summarize (history : List Rec) (keep_last turns_gap limit : Nat)
    (clientResp : Option String) : Option String × Option Rec :=
  if ¬ ChatService.need_summarize history keep_last turns_gap then
    (latestSummaryContent history, none)
  else
    let linear := history.filter isLive
    let head := if keep_last < linear.length then pyDropLast keep_last linear else []
    if head = [] then (none, none)
    else
      match clientResp with
      | none => (none, none)
      | some raw =>
        let summary_text := raw.trim
        if summary_text = "" then (none, none)
        else
          let content := summary_text.take (limit + 500)
          (some content, some { role := "system", kind := some "summary", content := content })

/-- The second system block of `_build_messages`: present exactly when
`summary_text` is Python-truthy (a non-`None`, non-empty string). -/
def summaryBlock : Option String → List Msg
  | some s => if s = "" then [] else [⟨"system", "input_text", "[summary]\n" ++ s⟩]
  | none => []

/-- How `_build_messages` renders one live window record: user records as
`input_text`, assistant records as `output_text`. -/
def recToMsg (m : Rec) : Msg :=
  ⟨m.role, if m.role == "user" then "input_text" else "output_text", m.content⟩

/-- `ChatService._build_messages`: anchor system prompt, optional summary
block, the live window (`window[-keep:]` when it exceeds `keep`), and the new
user message. -/
def ChatService.build_messages (system_prompt : String) (summary_text : Option String)
    (history : List Rec) (new_user_text : String) (keep : Nat) : List Msg :=
  let window := history.filter isLive
  let window := if keep < window.length then pySliceLast keep window else window
  [⟨"system", "input_text", system_prompt⟩] ++ summaryBlock summary_text ++
    window.map recToMsg ++ [⟨"user", "input_text", new_user_text⟩]

/-- The message list assembled for one turn: `_build_messages` applied to the
summary text resolved by `_summarize` (summarization enabled, as in the
default configuration). -/
def ChatService.assembleTurn (system_prompt : String) (history : List Rec)
    (new_user_text : String) (keep_last turns_gap limit : Nat)
    (summaryResp : Option String) : List Msg :=
  ChatService.build_messages system_prompt
    (ChatService.summarize history keep_last turns_gap limit summaryResp).1
    history new_user_text keep_last

/-- `ChatService.chat` over the store state: load the history, run the summary
pipeline (appending a summary record on success), call the completion client
(`mainResp = none` means the call raised, which `chat` re-raises), and on
success append the user record then the assistant record. -/
def ChatService.chat (store : Store) (conv : String) (user_text : String)
    (keep_last turns_gap limit : Nat) (summaryResp mainResp : Option String) :
    Except Unit String × Store :=
  let history := ConversationStore.load store conv
  let s := ChatService.summarize history keep_last turns_gap limit summaryResp
  let store1 := match s.2 with
    | some r => ConversationStore.append store conv r
    | none => store
  match mainResp with
  | none => (Except.error (), store1)
  | some assistant_text =>
    let store2 := ConversationStore.append store1 conv
      { role := "user", content := user_text }
    let store3 := ConversationStore.append store2 conv
      { role := "assistant", content := assistant_text }
    (Except.ok assistant_text, store3)

/-- Modelled from the claim wording of C1: the count of assistant-role live
records appearing after the position of the latest summary-kind record of the
history (the whole history after the last summary record, filtered to
assistant-role records). -/
def assistantTurnsSinceLastSummary (history : List Rec) : Nat :=
  ((history.reverse.takeWhile (fun m => ¬ (m.kind == some "summary"))).filter
    (fun m => m.role == "assistant")).length

/-- Count of non-overlapping occurrences of the triple-backtick fence marker,
as Python's `para.count("```")` computes it (greedy, left to right). -/
def countTicks : List Char → Nat
  | '`' :: '`' :: '`' :: rest => countTicks rest + 1
  | _ :: rest => countTicks rest
  | [] => 0

/-- Leading run of newline characters of a list and the remainder (the greedy
tail of a `\n\n+` regex match). -/
def takeNewlines : List Char → List Char × List Char
  | '\n' :: rest =>
      let p := takeNewlines rest
      ('\n' :: p.1, p.2)
  | cs => ([], cs)

/-- Python's `re.split(r"(\n\n+)", text)`: alternating text pieces and
captured separator pieces (maximal runs of two or more newlines).  The fuel
argument bounds the recursion; every step consumes at least one character, so
`cs.length + 1` fuel (as `splitParas` passes) always reaches the `[]` case and
the zero-fuel fallback is never taken. -/
def splitGo : Nat → List Char → List Char → List (List Char)
  | _, acc, [] => [acc.reverse]
  | 0, _, _ => []
  | fuel + 1, acc, c :: rest =>
    if c = '\n' ∧ rest.head? = some '\n' then
      let p := takeNewlines rest
      acc.reverse :: (c :: p.1) :: splitGo fuel [] p.2
    else
      splitGo fuel (c :: acc) rest

/-- Paragraph split of the chunker's input text. -/
def splitParas (cs : List Char) : List (List Char) := splitGo (cs.length + 1) [] cs

/-- Mutable state of the chunking loop: emitted chunks, current buffer, and
the code-fence toggle. -/
structure CState where
  chunks : List (List Char)
  buf : List Char
  code_open : Bool

/-- The loop's `flush()`: emit the buffer as a chunk when non-empty. -/
def flushBuf (st : CState) : CState :=
  if st.buf = [] then st else { st with chunks := st.chunks ++ [st.buf], buf := [] }

/-- The hard-split guard `if len(buf) >= limit: flush()`. -/
def flushIfFull (limit : Nat) (st : CState) : CState :=
  if limit ≤ st.buf.length then flushBuf st else st

/-- The hard-split loop of `chunk_message` for a paragraph longer than the
limit: repeatedly fill the buffer up to `limit` characters and flush when
full.  Fuel bounds the loop: for `limit ≥ 1` each round consumes at least one
character, so `para.length` fuel (as `stepPara` passes) is always enough; for
`limit = 0` the Python loop never terminates, and the model stops when fuel
runs out. -/
def hardSplitGo (limit : Nat) : Nat → CState → List Char → CState
  | 0, st, _ => st
  | fuel + 1, st, rest =>
    if rest = [] then st
    else
      let rem0 := limit - st.buf.length
      let st1 := if rem0 = 0 then flushBuf st else st
      let rem := if rem0 = 0 then limit else rem0
      let st2 := flushIfFull limit { st1 with buf := st1.buf ++ rest.take rem }
      hardSplitGo limit fuel st2 (rest.drop rem)

/-- The separator-paragraph branch of the loop (`para.startswith("\n\n")`):
append when it fits, otherwise flush and keep `para.lstrip("\n")`. -/
def stepSep (limit : Nat) (st : CState) (para : List Char) : CState :=
  if st.buf.length + para.length ≤ limit then { st with buf := st.buf ++ para }
  else { flushBuf st with buf := para.dropWhile (fun c => c = '\n') }

/-- One iteration of the paragraph loop of `chunk_message`. -/
def stepPara (limit : Nat) (st : CState) (para : List Char) : CState :=
  if para.take 2 = ['\n', '\n'] then stepSep limit st para
  else
    let st := { st with
      code_open := if countTicks para % 2 = 1 then !st.code_open else st.code_open }
    if st.buf.length + para.length ≤ limit then { st with buf := st.buf ++ para }
    else if limit < para.length then hardSplitGo limit para.length st para
    else { flushBuf st with buf := para }

/-- The final fix-up `chunks[-1] += "\n```"` applied to the last chunk (doing
nothing on an empty chunk list, matching `if code_open and chunks`). -/
def closeLast : List (List Char) → List (List Char)
  | [] => []
  | [c] => [c ++ ('\n' :: '`' :: '`' :: '`' :: [])]
  | c :: rest => c :: closeLast rest

/-- `chunk_message` over character lists: texts within the limit pass through
unchanged; longer texts run the paragraph loop, flush the buffer, and close an
open code fence on the last chunk. -/
def chunkList (text : List Char) (limit : Nat) : List (List Char) :=
  if text.length ≤ limit then [text]
  else
    let st := (splitParas text).foldl (stepPara limit) ⟨[], [], false⟩
    let st1 := flushBuf st
    if st1.code_open then closeLast st1.chunks else st1.chunks

/-- `chunk_message` from `app/telegram/utils.py`. -/
def chunk_message (text : String) (limit : Nat) : List String :=
  (chunkList text.data limit).map String.mk

/-- The code-fence toggle contributed by one paragraph of the loop (separator
paragraphs are skipped by `continue` before the tick count). -/
def fenceToggle (b : Bool) (p : List Char) : Bool :=
  if p.take 2 = ['\n', '\n'] then b
  else if countTicks p % 2 = 1 then !b else b

/-- The fence flag left by processing a paragraph list, i.e. whether the text
ends inside an unterminated code fence. -/
def fenceOpenParas (paras : List (List Char)) : Bool := paras.foldl fenceToggle false

/-- One per-user entry of the session-registry JSON map.  Field defaults are
what Python's `entry.get(...)` reads from a missing key (`or \x7b\x7d` makes the
absent-entry case the all-defaults record).  `status_message_id` is typed as
the integer the reads coerce it to, and `daily_usage` is the per-date counter
map. -/
structure Entry where
  telegram_user_id : Int := 0
  conversation_id : Option String := none
  status_message_id : Option Int := none
  in_flight : Bool := false
  updated_at : String := ""
  daily_usage : List (String × Int) := []
deriving DecidableEq

/-- Registry map lookup (`data.get(str(user_id))`). -/
def lookupUser : List (Nat × Entry) → Nat → Option Entry
  | [], _ => none
  | (k, v) :: rest, u => if k = u then some v else lookupUser rest u

/-- Registry map update (`data[str(user_id)] = entry`). -/
def setUser : List (Nat × Entry) → Nat → Entry → List (Nat × Entry)
  | [], u, e => [(u, e)]
  | (k, v) :: rest, u, e => if k = u then (u, e) :: rest else (k, v) :: setUser rest u e

/-- `TelegramRegistry.begin_in_flight` under the file lock, as a transition on
the registry map (`now` stands for the `time.strftime` stamp): fail and leave
the map untouched when the user's `in_flight` is already set, otherwise mark
it and write back. -/
def TelegramRegistry.begin_in_flight (data : List (Nat × Entry)) (user_id : Nat)
    (now : String) : Bool × List (Nat × Entry) :=
  let entry := (lookupUser data user_id).getD {}
  if entry.in_flight then (false, data)
  else
    (true, setUser data user_id
      { entry with in_flight := true, telegram_user_id := Int.ofNat user_id,
                   updated_at := now })

/-- The registry's backing file as the reads see it: absent, present but
holding text `json.loads` rejects, or holding a valid map. -/
inductive RegFile where
  | absent : RegFile
  | corrupt : RegFile
  | valid (data : List (Nat × Entry)) : RegFile
deriving DecidableEq

/-- `TelegramRegistry._read_nolock`: an absent file reads as the empty map,
and any `json.loads` failure is caught and also reads as the empty map. -/
def TelegramRegistry.read_nolock : RegFile → List (Nat × Entry)
  | RegFile.absent => []
  | RegFile.corrupt => []
  | RegFile.valid d => d

/-- `TelegramRegistry.status_message_id`: read the map, take the user's entry
(or the empty entry) and return its `status_message_id` (the source's
string-to-int coercion is identity on the typed field). -/
def TelegramRegistry.status_message_id (f : RegFile) (u : Nat) : Option Int :=
  ((lookupUser (TelegramRegistry.read_nolock f) u).getD {}).status_message_id

/-- `TelegramRegistry.can_consume_message`: the count consumed today (0 when
the entry or date key is missing) must be below the daily limit. -/
def TelegramRegistry.can_consume_message (f : RegFile) (u : Nat) (today : String)
    (limit_per_day : Int) : Bool :=
  let entry := (lookupUser (TelegramRegistry.read_nolock f) u).getD {}
  let used := (entry.daily_usage.lookup today).getD 0
  decide (used < limit_per_day)

/-- The existence check of `get_or_create_active_conversation`
(`entry and entry.get("conversation_id")`, Python truthiness: the entry must
exist and hold a non-empty conversation id). -/
def TelegramRegistry.hasActiveConversation (f : RegFile) (u : Nat) : Bool :=
  match lookupUser (TelegramRegistry.read_nolock f) u with
  | some e =>
    match e.conversation_id with
    | some c => decide (c ≠ "")
    | none => false
  | none => false

/-- The attributes defined on class `TelegramRegistry` in
`app/telegram/registry.py` (Python resolves `self.registry.<name>` against
this set at call time; the former `in_flight` method was removed, per the
comment above `status_message_id`). -/
def TelegramRegistry.methodNames : List String :=
  ["get_or_create_active_conversation", "start_new_conversation", "set_status",
   "clear_status", "status_message_id", "begin_in_flight", "update_profile",
   "can_consume_message", "consume_message", "_update", "_read", "_write",
   "_read_nolock", "_write_nolock", "path", "lock_path"]

/-- Observable outcome of `TelegramHandlers.text_message` for a free-text
update (profile update and conversation resolution elided: they precede the
branches under test and always succeed in the model). -/
inductive TextOutcome where
  | limitReply : TextOutcome
  | stillWorkingReply : TextOutcome
  | turnEnqueued : TextOutcome
  | attributeError (method : String) : TextOutcome
deriving DecidableEq

/-- `TelegramHandlers.text_message` after the quota gate: the handler next
evaluates `self.registry.in_flight(user_id)`, which only yields a value when
`TelegramRegistry` defines an `in_flight` attribute; otherwise the attribute
lookup raises `AttributeError` out of the handler. -/
def TelegramHandlers.text_message (canConsume inFlightFlag : Bool) : TextOutcome :=
  if canConsume = false then TextOutcome.limitReply
  else if TelegramRegistry.methodNames.contains "in_flight" then
    (if inFlightFlag then TextOutcome.stillWorkingReply else TextOutcome.turnEnqueued)
  else TextOutcome.attributeError "in_flight"

/-- Invariant of the chunking loop: the buffer and every emitted chunk stay
within the limit. -/
def ChunksBounded (limit : Nat) (st : CState) : Prop :=
  st.buf.length ≤ limit ∧ ∀ c ∈ st.chunks, c.length ≤ limit

/-- C1: immediately after a successful compaction the history ends with the
summary record written by `_summarize` (role `system`, kind `summary`); with
`keep_last = 2` and `update_every_n_turns = 2` and no new turns,
`_need_summarize` nevertheless reports `true` again, although the number of
assistant-role live records after the latest summary record is 0: the search
for the last summary scans only user/assistant records for
`kind == "summary"`, which the system-role summary record never matches, so
`last_summary_turn` stays 0 and compaction re-triggers. -/
theorem need_summarize_retriggers_after_compaction :
    ChatService.need_summarize
      [⟨"user", none, "u1"⟩, ⟨"assistant", none, "a1"⟩, ⟨"user", none, "u2"⟩,
       ⟨"assistant", none, "a2"⟩, ⟨"user", none, "u3"⟩, ⟨"assistant", none, "a3"⟩,
       ⟨"system", some "summary", "s"⟩] 2 2 = true ∧
    assistantTurnsSinceLastSummary
      [⟨"user", none, "u1"⟩, ⟨"assistant", none, "a1"⟩, ⟨"user", none, "u2"⟩,
       ⟨"assistant", none, "a2"⟩, ⟨"user", none, "u3"⟩, ⟨"assistant", none, "a3"⟩,
       ⟨"system", some "summary", "s"⟩] = 0 ∧
    ([⟨"user", none, "u1"⟩, ⟨"assistant", none, "a1"⟩, ⟨"user", none, "u2"⟩,
      ⟨"assistant", none, "a2"⟩, ⟨"user", none, "u3"⟩, ⟨"assistant", none, "a3"⟩,
      ⟨"system", some "summary", "s"⟩].filter isLive).length > 2 := by
  decide

/-- C5: a free-text message from a user within quota whose turn is already in
flight does not produce the "still working" reply: the handler evaluates
`self.registry.in_flight(user_id)`, but `TelegramRegistry` defines no
`in_flight` attribute (the method was removed in favour of
`begin_in_flight`), so the lookup raises `AttributeError` instead of
completing as a defined state. -/
theorem text_message_in_flight_attribute_error :
    TelegramHandlers.text_message true true = TextOutcome.attributeError "in_flight" ∧
    TelegramHandlers.text_message true true ≠ TextOutcome.stillWorkingReply := by
  decide

/-- The window actually sent, `window[-keep:]` behind the overflow guard, is
the suffix of the last `min (length, keep)` live records whenever
`keep ≥ 1`. -/
theorem window_eq_drop (keep : Nat) (hk : 1 ≤ keep) (w : List Rec) :
    (if keep < w.length then pySliceLast keep w else w) = w.drop (w.length - keep) := by
  have hk0 : keep ≠ 0 := by omega
  unfold pySliceLast
  by_cases h : keep < w.length
  · simp [h, hk0]
  · have h0 : w.length - keep = 0 := by omega
    simp [h, h0]

/-- C2: for any history, summary text and new user input (and any window size
`keep ≥ 1`, the deployed configuration being 12), the assembled list is
exactly the anchor system message, one summary block iff a non-empty summary
text is present, the last `min (live_count, keep)` live records in order, and
the new user message; its length is `1 + (0 or 1) + min (live_count, keep) + 1`. -/
theorem build_messages_shape (p : String) (t : Option String) (history : List Rec)
    (u : String) (keep : Nat) (hk : 1 ≤ keep) :
    ChatService.build_messages p t history u keep =
      [⟨"system", "input_text", p⟩] ++ summaryBlock t ++
        ((history.filter isLive).drop ((history.filter isLive).length - keep)).map recToMsg ++
        [⟨"user", "input_text", u⟩] ∧
    (ChatService.build_messages p t history u keep).length =
      1 + (summaryBlock t).length + min (history.filter isLive).length keep + 1 ∧
    ((∃ s, t = some s ∧ s ≠ "") ↔ (summaryBlock t).length = 1) := by
  refine ⟨?_, ?_, ?_⟩
  · unfold ChatService.build_messages
    dsimp only
    rw [window_eq_drop keep hk]
  · unfold ChatService.build_messages
    dsimp only
    rw [window_eq_drop keep hk]
    simp [List.length_append, List.length_drop]
    omega
  · constructor
    · rintro ⟨s, rfl, hs⟩
      simp [summaryBlock, hs]
    · intro h
      match t with
      | none => simp [summaryBlock] at h
      | some s =>
        refine ⟨s, rfl, ?_⟩
        intro hs
        simp [summaryBlock, hs] at h

/-- C2 witness: the shape theorem evaluated at a concrete history of three
live records, a present summary text, and window size 2. -/
theorem build_messages_shape_check :
    1 ≤ 2 ∧
    (ChatService.build_messages "p" (some "s")
        [⟨"user", none, "m1"⟩, ⟨"assistant", none, "m2"⟩, ⟨"user", none, "m3"⟩] "u" 2 =
      [⟨"system", "input_text", "p"⟩] ++ summaryBlock (some "s") ++
        ((([⟨"user", none, "m1"⟩, ⟨"assistant", none, "m2"⟩,
            ⟨"user", none, "m3"⟩] : List Rec).filter isLive).drop
          ((([⟨"user", none, "m1"⟩, ⟨"assistant", none, "m2"⟩,
              ⟨"user", none, "m3"⟩] : List Rec).filter isLive).length - 2)).map recToMsg ++
        [⟨"user", "input_text", "u"⟩] ∧
     (ChatService.build_messages "p" (some "s")
        [⟨"user", none, "m1"⟩, ⟨"assistant", none, "m2"⟩, ⟨"user", none, "m3"⟩] "u" 2).length =
      1 + (summaryBlock (some "s")).length +
        min (([⟨"user", none, "m1"⟩, ⟨"assistant", none, "m2"⟩,
               ⟨"user", none, "m3"⟩] : List Rec).filter isLive).length 2 + 1 ∧
     ((∃ s, (some "s" : Option String) = some s ∧ s ≠ "") ↔
       (summaryBlock (some "s")).length = 1)) :=
  ⟨by decide,
   build_messages_shape "p" (some "s")
     [⟨"user", none, "m1"⟩, ⟨"assistant", none, "m2"⟩, ⟨"user", none, "m3"⟩] "u" 2
     (by decide)⟩

/-- C4 counterexample: a history whose live count (0) is within `keep_last`
(12) but which holds a summary record still gets a summary block in the
assembled context — `_summarize` returns the existing latest summary
unchanged whenever no compaction is needed, and `_build_messages` then emits
the block. -/
theorem assembleTurn_summary_despite_small_history :
    (([⟨"system", some "summary", "s"⟩] : List Rec).filter isLive).length = 0 ∧
    ChatService.assembleTurn "p" [⟨"system", some "summary", "s"⟩] "hi" 12 6 4000 none =
      [⟨"system", "input_text", "p"⟩, ⟨"system", "input_text", "[summary]\ns"⟩,
       ⟨"user", "input_text", "hi"⟩] := by
  decide

/-- C4 (amended): for a history within the window size that contains no
summary-kind record, the assembled context has no summary block and carries
every live record of the history in the window. -/
theorem assembleTurn_small_history_no_summary (p : String) (history : List Rec)
    (u : String) (keep gap limit : Nat) (resp : Option String)
    (hlen : (history.filter isLive).length ≤ keep)
    (hns : ∀ r ∈ history, r.kind ≠ some "summary") :
    ChatService.assembleTurn p history u keep gap limit resp =
      [⟨"system", "input_text", p⟩] ++ (history.filter isLive).map recToMsg ++
        [⟨"user", "input_text", u⟩] := by
  have hneed : ChatService.need_summarize history keep gap = false := by
    unfold ChatService.need_summarize
    dsimp only
    rw [if_pos hlen]
  have hlatest : ConversationStore.latest_summary history = none := by
    unfold ConversationStore.latest_summary
    rw [List.find?_eq_none]
    intro r hr
    rw [List.mem_reverse] at hr
    simpa using hns r hr
  have hsum : (ChatService.summarize history keep gap limit resp).1 = none := by
    unfold ChatService.summarize
    rw [if_pos (by simp [hneed])]
    simp [latestSummaryContent, hlatest]
  unfold ChatService.assembleTurn
  rw [hsum]
  unfold ChatService.build_messages
  dsimp only
  rw [if_neg (by omega : ¬ keep < (history.filter isLive).length)]
  simp [summaryBlock]

/-- C4 witness: the amended theorem evaluated at a one-record live history
under the deployed configuration. -/
theorem assembleTurn_small_history_no_summary_check :
    ((([⟨"user", none, "m"⟩] : List Rec).filter isLive).length ≤ 12 ∧
      ∀ r ∈ ([⟨"user", none, "m"⟩] : List Rec), r.kind ≠ some "summary") ∧
    ChatService.assembleTurn "p" [⟨"user", none, "m"⟩] "hi" 12 6 4000 none =
      [⟨"system", "input_text", "p"⟩] ++
        (([⟨"user", none, "m"⟩] : List Rec).filter isLive).map recToMsg ++
        [⟨"user", "input_text", "hi"⟩] :=
  ⟨⟨by decide, by decide⟩,
   assembleTurn_small_history_no_summary "p" [⟨"user", none, "m"⟩] "hi" 12 6 4000 none
     (by decide) (by decide)⟩

/-- Writing a conversation's record list and reading it back returns exactly
that list. -/
theorem lookupConv_setConv (s : Store) (c : String) (v : List Rec) :
    lookupConv (setConv s c v) c = some v := by
  induction s with
  | nil => simp [setConv, lookupConv]
  | cons kv rest ih =>
    obtain ⟨k, w⟩ := kv
    by_cases h : k = c
    · simp [setConv, lookupConv, h]
    · simp [setConv, lookupConv, h, ih]

/-- Appending one record to a conversation's log extends its load by exactly
that record. -/
theorem load_append (s : Store) (c : String) (r : Rec) :
    ConversationStore.load (ConversationStore.append s c r) c =
      ConversationStore.load s c ++ [r] := by
  unfold ConversationStore.append ConversationStore.load
  rw [lookupConv_setConv]
  rfl

/-- Whatever record the summarization path appends has role `system` (it is a
compaction record, never one of the turn's live records). -/
theorem summarize_rec_role (history : List Rec) (keep gap limit : Nat)
    (resp : Option String) (r : Rec)
    (h : (ChatService.summarize history keep gap limit resp).2 = some r) :
    r.role = "system" := by
  unfold ChatService.summarize at h
  dsimp only at h
  repeat' split at h
  all_goals try simp_all
  all_goals rw [← h]

/-- C3: if the completion-client call raises, the turn yields an error and
appends neither of its two records — the conversation's live records are
unchanged (only a system-role compaction record may have been written by the
summary pipeline, which runs before the call); a successful turn appends
exactly one user record followed by one assistant record. -/
theorem chat_no_partial_turn (store : Store) (conv user_text : String)
    (keep gap limit : Nat) (sResp mResp : Option String) :
    (mResp = none →
      (ChatService.chat store conv user_text keep gap limit sResp mResp).1 =
        Except.error () ∧
      (ConversationStore.load
          (ChatService.chat store conv user_text keep gap limit sResp mResp).2 conv).filter
          isLive =
        (ConversationStore.load store conv).filter isLive) ∧
    (∀ t, mResp = some t →
      (ChatService.chat store conv user_text keep gap limit sResp mResp).1 =
        Except.ok t ∧
      (ConversationStore.load
          (ChatService.chat store conv user_text keep gap limit sResp mResp).2 conv).filter
          isLive =
        (ConversationStore.load store conv).filter isLive ++
          [{ role := "user", content := user_text }, { role := "assistant", content := t }]) := by
  have hstore1 : ∀ st1 : Store,
      (st1 = match (ChatService.summarize (ConversationStore.load store conv)
                keep gap limit sResp).2 with
             | some r => ConversationStore.append store conv r
             | none => store) →
      (ConversationStore.load st1 conv).filter isLive =
        (ConversationStore.load store conv).filter isLive := by
    intro st1 hdef
    cases hs : (ChatService.summarize (ConversationStore.load store conv)
        keep gap limit sResp).2 with
    | none => rw [hdef, hs]
    | some r =>
      rw [hdef, hs, load_append, List.filter_append]
      have hrole : r.role = "system" :=
        summarize_rec_role _ keep gap limit sResp r hs
      have : isLive r = false := by simp [isLive, hrole]
      simp [this]
  constructor
  · intro hm
    subst hm
    unfold ChatService.chat
    dsimp only
    exact ⟨rfl, hstore1 _ rfl⟩
  · intro t hm
    subst hm
    unfold ChatService.chat
    dsimp only
    refine ⟨rfl, ?_⟩
    rw [load_append, load_append, List.filter_append, List.filter_append,
      hstore1 _ rfl]
    simp [isLive]

/-- C3 witness: a successful turn on the empty store under the deployed
configuration appends exactly the user and assistant records. -/
theorem chat_no_partial_turn_check :
    (ConversationStore.load
        (ChatService.chat [] "c" "hi" 12 6 4000 none (some "ok")).2 "c").filter isLive =
      (ConversationStore.load ([] : Store) "c").filter isLive ++
        [{ role := "user", content := "hi" }, { role := "assistant", content := "ok" }] :=
  ((chat_no_partial_turn [] "c" "hi" 12 6 4000 none (some "ok")).2 "ok" rfl).2

/-- Writing a user's registry entry and reading it back returns exactly that
entry. -/
theorem lookupUser_setUser (data : List (Nat × Entry)) (u : Nat) (e : Entry) :
    lookupUser (setUser data u e) u = some e := by
  induction data with
  | nil => simp [setUser, lookupUser]
  | cons kv rest ih =>
    obtain ⟨k, v⟩ := kv
    by_cases h : k = u
    · simp [setUser, lookupUser, h]
    · simp [setUser, lookupUser, h, ih]

/-- C6: from a state where the user is not in flight, `begin_in_flight`
succeeds and sets the flag; a second (lock-serialized) call for the same user
then fails and leaves the registry map unchanged — of the two calls exactly
one succeeds. -/
theorem begin_in_flight_exclusive (data : List (Nat × Entry)) (u : Nat) (t1 t2 : String)
    (h : ((lookupUser data u).getD {}).in_flight = false) :
    (TelegramRegistry.begin_in_flight data u t1).1 = true ∧
    ((lookupUser (TelegramRegistry.begin_in_flight data u t1).2 u).getD {}).in_flight
      = true ∧
    (TelegramRegistry.begin_in_flight
      (TelegramRegistry.begin_in_flight data u t1).2 u t2).1 = false ∧
    (TelegramRegistry.begin_in_flight
        (TelegramRegistry.begin_in_flight data u t1).2 u t2).2 =
      (TelegramRegistry.begin_in_flight data u t1).2 := by
  unfold TelegramRegistry.begin_in_flight
  simp [h, lookupUser_setUser]

/-- C6 witness: the exclusivity theorem on the empty registry for user 7. -/
theorem begin_in_flight_exclusive_check :
    ((lookupUser ([] : List (Nat × Entry)) 7).getD {}).in_flight = false ∧
    (TelegramRegistry.begin_in_flight ([] : List (Nat × Entry)) 7 "t1").1 = true ∧
    (TelegramRegistry.begin_in_flight
      (TelegramRegistry.begin_in_flight ([] : List (Nat × Entry)) 7 "t1").2 7 "t2").1 =
      false :=
  ⟨by decide,
   (begin_in_flight_exclusive [] 7 "t1" "t2" (by decide)).1,
   (begin_in_flight_exclusive [] 7 "t1" "t2" (by decide)).2.2.1⟩

/-- Loading after a sequence of appends extends the previous load by exactly
the appended records, in order. -/
theorem load_foldl_append (cid : String) (rs : List Rec) :
    ∀ s : Store,
      ConversationStore.load
        (rs.foldl (fun s r => ConversationStore.append s cid r) s) cid =
      ConversationStore.load s cid ++ rs := by
  induction rs with
  | nil => intro s; simp
  | cons r rest ih =>
    intro s
    simp only [List.foldl_cons]
    rw [ih, load_append]
    simp

/-- C7: starting from a conversation with no records, N successful appends
are returned by `load` exactly and in append order; loading a nonexistent
conversation yields the empty sequence (and, the store being total, never
fails). -/
theorem load_after_appends (store : Store) (cid : String) (rs : List Rec)
    (h : ConversationStore.load store cid = []) :
    ConversationStore.load
      (rs.foldl (fun s r => ConversationStore.append s cid r) store) cid = rs ∧
    ConversationStore.load ([] : Store) cid = [] := by
  constructor
  · rw [load_foldl_append, h]
    simp
  · rfl

/-- C7 witness: two records appended to a fresh conversation (on a store that
already holds another conversation) load back exactly. -/
theorem load_after_appends_check :
    ConversationStore.load ([("other", [⟨"user", none, "x"⟩])] : Store) "c" = [] ∧
    ConversationStore.load
      (([⟨"user", none, "hi"⟩, ⟨"assistant", none, "ok"⟩] : List Rec).foldl
        (fun s r => ConversationStore.append s "c" r)
        ([("other", [⟨"user", none, "x"⟩])] : Store)) "c" =
      [⟨"user", none, "hi"⟩, ⟨"assistant", none, "ok"⟩] :=
  ⟨by decide,
   (load_after_appends [("other", [⟨"user", none, "x"⟩])] "c"
     [⟨"user", none, "hi"⟩, ⟨"assistant", none, "ok"⟩] (by decide)).1⟩

/-- C10: a missing or unparseable registry file reads as the empty map, so
every read operation built on `_read_nolock` behaves exactly as on a registry
with no users recorded — no read raises a storage error. -/
theorem registry_reads_degrade_to_empty (f : RegFile)
    (h : f = RegFile.absent ∨ f = RegFile.corrupt) (u : Nat) (today : String)
    (limit : Int) :
    TelegramRegistry.read_nolock f = [] ∧
    TelegramRegistry.status_message_id f u =
      TelegramRegistry.status_message_id (RegFile.valid []) u ∧
    TelegramRegistry.can_consume_message f u today limit =
      TelegramRegistry.can_consume_message (RegFile.valid []) u today limit ∧
    TelegramRegistry.hasActiveConversation f u = false := by
  rcases h with h | h <;> subst h <;>
    exact ⟨rfl, rfl, rfl, rfl⟩

/-- C10 witness: the degradation theorem on a corrupt registry file for user 3
with a positive daily limit. -/
theorem registry_reads_degrade_to_empty_check :
    (RegFile.corrupt = RegFile.absent ∨ RegFile.corrupt = RegFile.corrupt) ∧
    (TelegramRegistry.read_nolock RegFile.corrupt = [] ∧
      TelegramRegistry.status_message_id RegFile.corrupt 3 =
        TelegramRegistry.status_message_id (RegFile.valid []) 3 ∧
      TelegramRegistry.can_consume_message RegFile.corrupt 3 "2026-10-12" 30 =
        TelegramRegistry.can_consume_message (RegFile.valid []) 3 "2026-10-12" 30 ∧
      TelegramRegistry.hasActiveConversation RegFile.corrupt 3 = false) :=
  ⟨Or.inr rfl,
   registry_reads_degrade_to_empty RegFile.corrupt (Or.inr rfl) 3 "2026-10-12" 30⟩

/-- C8 counterexample: a text that is one unterminated code fence longer than
the limit is hard-split, and the first returned chunk carries exactly one
(unbalanced) triple-backtick marker — only the last chunk is closed. -/
theorem chunk_message_odd_fence_chunk :
    chunk_message "```\nabcdefghijklm" 10 = ["```\nabcdef", "ghijklm\n```"] ∧
    countTicks ("```\nabcdef".data) % 2 = 1 := by
  decide

/-- C9 counterexample: the defensive closing fence appended to the final
chunk pushes it past the limit — the last chunk has length 14 with
`limit = 10`. -/
theorem chunk_message_final_chunk_exceeds_limit :
    chunk_message "```\nabcdefghijklmnop" 10 = ["```\nabcdef", "ghijklmnop\n```"] ∧
    10 < ("ghijklmnop\n```" : String).length := by
  decide

/-- Reducing `takeNewlines` on a non-newline head. -/
theorem takeNewlines_other (c : Char) (rest : List Char) (h : ¬ c = '\n') :
    takeNewlines (c :: rest) = ([], c :: rest) := by
  unfold takeNewlines
  split
  · simp_all
  · rfl

/-- Every character of the newline run peeled by `takeNewlines` is a
newline. -/
theorem takeNewlines_all (l : List Char) : ∀ c ∈ (takeNewlines l).1, c = '\n' := by
  induction l with
  | nil => intro c hc; simp [takeNewlines] at hc
  | cons a rest ih =>
    by_cases h : a = '\n'
    · subst h
      intro c hc
      rw [show takeNewlines ('\n' :: rest) =
            ('\n' :: (takeNewlines rest).1, (takeNewlines rest).2) from rfl] at hc
      rcases List.mem_cons.mp hc with h1 | h1
      · exact h1
      · exact ih c h1
    · intro c hc
      rw [takeNewlines_other a rest h] at hc
      simp at hc

/-- Any piece produced by the paragraph splitter that starts with two
newlines is a captured separator and consists of newlines only.  The two
accumulator invariants say that the text piece under construction does not
start with a double newline, and that a newline at its head cannot be
immediately followed by another one of the input (else the separator branch
would have fired). -/
theorem splitGo_pieces (fuel : Nat) : ∀ (cs acc : List Char),
    acc.reverse.take 2 ≠ ['\n', '\n'] →
    (acc.head? = some '\n' → cs.head? ≠ some '\n') →
    ∀ p ∈ splitGo fuel acc cs, p.take 2 = ['\n', '\n'] → ∀ c ∈ p, c = '\n' := by
  induction fuel with
  | zero =>
    intro cs acc hQ hH p hp htake
    cases cs with
    | nil =>
      simp only [splitGo, List.mem_singleton] at hp
      subst hp
      exact absurd htake hQ
    | cons c rest => simp [splitGo] at hp
  | succ n ih =>
    intro cs acc hQ hH p hp htake
    cases cs with
    | nil =>
      simp only [splitGo, List.mem_singleton] at hp
      subst hp
      exact absurd htake hQ
    | cons c rest =>
      rw [show splitGo (n + 1) acc (c :: rest) =
            (if c = '\n' ∧ rest.head? = some '\n' then
              acc.reverse :: (c :: (takeNewlines rest).1) ::
                splitGo n [] (takeNewlines rest).2
            else splitGo n (c :: acc) rest) from rfl] at hp
      by_cases hc : c = '\n' ∧ rest.head? = some '\n'
      · rw [if_pos hc] at hp
        rcases List.mem_cons.mp hp with h1 | h1
        · subst h1; exact absurd htake hQ
        · rcases List.mem_cons.mp h1 with h2 | h2
          · subst h2
            intro ch hch
            rcases List.mem_cons.mp hch with h3 | h3
            · exact h3.trans hc.1
            · exact takeNewlines_all rest ch h3
          · exact ih (takeNewlines rest).2 [] (by simp) (by simp) p h2 htake
      · rw [if_neg hc] at hp
        refine ih rest (c :: acc) ?_ ?_ p hp htake
        · cases acc with
          | nil =>
            intro hx
            simp at hx
          | cons a as =>
            cases as with
            | nil =>
              intro hx
              obtain ⟨ha, hcc⟩ : a = '\n' ∧ c = '\n' := by simpa using hx
              exact absurd (by simp [hcc] : ((c :: rest).head? = some '\n'))
                (hH (by simp [ha]))
            | cons b bs =>
              intro hx
              rw [List.reverse_cons, List.take_append_of_le_length (by simp)] at hx
              exact hQ hx
        · intro hhead
          simp only [List.head?_cons, Option.some.injEq] at hhead
          intro hrest
          exact hc ⟨hhead, hrest⟩

/-- Every separator-looking paragraph of the split input is newlines only. -/
theorem splitParas_sep_newlines (text : List Char) :
    ∀ p ∈ splitParas text, p.take 2 = ['\n', '\n'] → ∀ c ∈ p, c = '\n' :=
  splitGo_pieces (text.length + 1) text [] (by simp) (by simp)

/-- `flush()` always leaves an empty buffer. -/
theorem flushBuf_buf (st : CState) : (flushBuf st).buf = [] := by
  unfold flushBuf
  split
  · assumption
  · rfl

/-- `flush()` does not touch the fence flag. -/
theorem flushBuf_code_open (st : CState) : (flushBuf st).code_open = st.code_open := by
  unfold flushBuf
  split <;> rfl

/-- `flush()` preserves the loop invariant. -/
theorem flushBuf_bounded (limit : Nat) (st : CState) (h : ChunksBounded limit st) :
    ChunksBounded limit (flushBuf st) := by
  obtain ⟨hb, hcs⟩ := h
  unfold flushBuf
  split
  · exact ⟨hb, hcs⟩
  · refine ⟨by simp, ?_⟩
    intro c hcmem
    rcases List.mem_append.mp hcmem with h1 | h1
    · exact hcs c h1
    · rw [List.mem_singleton.mp h1]; exact hb

/-- The conditional flush preserves the loop invariant. -/
theorem flushIfFull_bounded (limit : Nat) (st : CState) (h : ChunksBounded limit st) :
    ChunksBounded limit (flushIfFull limit st) := by
  unfold flushIfFull
  split
  · exact flushBuf_bounded limit st h
  · exact h

/-- The conditional flush does not touch the fence flag. -/
theorem flushIfFull_code_open (limit : Nat) (st : CState) :
    (flushIfFull limit st).code_open = st.code_open := by
  unfold flushIfFull
  split
  · exact flushBuf_code_open st
  · rfl

/-- The hard-split loop preserves the loop invariant. -/
theorem hardSplitGo_bounded (limit : Nat) (fuel : Nat) : ∀ (st : CState) (rest : List Char),
    ChunksBounded limit st → ChunksBounded limit (hardSplitGo limit fuel st rest) := by
  induction fuel with
  | zero => intro st rest h; exact h
  | succ n ih =>
    intro st rest h
    rw [show hardSplitGo limit (n + 1) st rest =
          (if rest = [] then st
           else
             let rem0 := limit - st.buf.length
             let st1 := if rem0 = 0 then flushBuf st else st
             let rem := if rem0 = 0 then limit else rem0
             let st2 := flushIfFull limit { st1 with buf := st1.buf ++ rest.take rem }
             hardSplitGo limit n st2 (rest.drop rem)) from rfl]
    split
    · exact h
    · dsimp only
      apply ih
      apply flushIfFull_bounded
      by_cases h0 : limit - st.buf.length = 0
      · rw [if_pos h0, if_pos h0]
        refine ⟨?_, (flushBuf_bounded limit st h).2⟩
        rw [flushBuf_buf]
        simp [List.length_take]
      · rw [if_neg h0, if_neg h0]
        refine ⟨?_, h.2⟩
        have hb : st.buf.length ≤ limit := h.1
        simp only [List.length_append, List.length_take]
        omega

/-- The hard-split loop does not touch the fence flag. -/
theorem hardSplitGo_code_open (limit : Nat) (fuel : Nat) : ∀ (st : CState) (rest : List Char),
    (hardSplitGo limit fuel st rest).code_open = st.code_open := by
  induction fuel with
  | zero => intro st rest; rfl
  | succ n ih =>
    intro st rest
    rw [show hardSplitGo limit (n + 1) st rest =
          (if rest = [] then st
           else
             let rem0 := limit - st.buf.length
             let st1 := if rem0 = 0 then flushBuf st else st
             let rem := if rem0 = 0 then limit else rem0
             let st2 := flushIfFull limit { st1 with buf := st1.buf ++ rest.take rem }
             hardSplitGo limit n st2 (rest.drop rem)) from rfl]
    split
    · rfl
    · dsimp only
      rw [ih, flushIfFull_code_open]
      by_cases h0 : limit - st.buf.length = 0
      · rw [if_pos h0]
        exact flushBuf_code_open st
      · rw [if_neg h0]

/-- The separator branch preserves the loop invariant: a separator paragraph
is all newlines, so the `lstrip("\n")` kept after an overflow flush is
empty. -/
theorem stepSep_bounded (limit : Nat) (st : CState) (para : List Char)
    (hNL : ∀ c ∈ para, c = '\n') (h : ChunksBounded limit st) :
    ChunksBounded limit (stepSep limit st para) := by
  unfold stepSep
  split
  · exact ⟨by simpa using ‹st.buf.length + para.length ≤ limit›, h.2⟩
  · refine ⟨?_, (flushBuf_bounded limit st h).2⟩
    have : para.dropWhile (fun c => c = '\n') = [] :=
      List.dropWhile_eq_nil_iff.mpr (by simpa using hNL)
    simp [this]

/-- The separator branch does not touch the fence flag. -/
theorem stepSep_code_open (limit : Nat) (st : CState) (para : List Char) :
    (stepSep limit st para).code_open = st.code_open := by
  unfold stepSep
  split
  · rfl
  · exact flushBuf_code_open st

/-- One paragraph step preserves the loop invariant, provided any
separator-looking paragraph is newlines only (which `splitParas` supplies). -/
theorem stepPara_bounded (limit : Nat) (st : CState) (para : List Char)
    (hNL : para.take 2 = ['\n', '\n'] → ∀ c ∈ para, c = '\n')
    (h : ChunksBounded limit st) :
    ChunksBounded limit (stepPara limit st para) := by
  unfold stepPara
  split
  · exact stepSep_bounded limit st para (hNL ‹_›) h
  · dsimp only
    split
    · rename_i hfit
      exact ⟨by simpa using hfit, h.2⟩
    · split
      · exact hardSplitGo_bounded limit para.length _ para ⟨h.1, h.2⟩
      · rename_i hnofit hnobig
        exact ⟨by simpa using Nat.le_of_not_lt hnobig,
          (flushBuf_bounded limit
            { st with code_open :=
                if countTicks para % 2 = 1 then !st.code_open else st.code_open }
            ⟨h.1, h.2⟩).2⟩

/-- One paragraph step toggles the fence flag exactly as `fenceToggle`. -/
theorem stepPara_code_open (limit : Nat) (st : CState) (para : List Char) :
    (stepPara limit st para).code_open = fenceToggle st.code_open para := by
  unfold stepPara fenceToggle
  split
  · rw [stepSep_code_open]
  · dsimp only
    split
    · rfl
    · split
      · rw [hardSplitGo_code_open]
      · rw [flushBuf_code_open]

/-- The paragraph fold preserves the loop invariant. -/
theorem foldl_stepPara_bounded (limit : Nat) (paras : List (List Char)) :
    ∀ st : CState,
      (∀ p ∈ paras, p.take 2 = ['\n', '\n'] → ∀ c ∈ p, c = '\n') →
      ChunksBounded limit st →
      ChunksBounded limit (paras.foldl (stepPara limit) st) := by
  induction paras with
  | nil => intro st _ h; exact h
  | cons p rest ih =>
    intro st hNL h
    simp only [List.foldl_cons]
    exact ih _ (fun q hq => hNL q (List.mem_cons_of_mem p hq))
      (stepPara_bounded limit st p (hNL p (List.mem_cons_self p rest)) h)

/-- The paragraph fold computes the same fence flag as the pure toggle fold. -/
theorem foldl_stepPara_code_open (limit : Nat) (paras : List (List Char)) :
    ∀ st : CState,
      (paras.foldl (stepPara limit) st).code_open = paras.foldl fenceToggle st.code_open := by
  induction paras with
  | nil => intro st; rfl
  | cons p rest ih =>
    intro st
    simp only [List.foldl_cons]
    rw [ih, stepPara_code_open]

/-- The closing-fence fix-up rewrites a non-empty chunk list into its initial
part plus the last chunk with the four fence characters appended. -/
theorem closeLast_shape (cs : List (List Char)) (h : cs ≠ []) :
    ∃ init last, cs = init ++ [last] ∧
      closeLast cs = init ++ [last ++ ('\n' :: '`' :: '`' :: '`' :: [])] := by
  induction cs with
  | nil => exact absurd rfl h
  | cons c rest ih =>
    cases rest with
    | nil => exact ⟨[], c, by simp, by simp [closeLast]⟩
    | cons c2 rest2 =>
      obtain ⟨init, last, h1, h2⟩ := ih (by simp)
      refine ⟨c :: init, last, by simp [h1], ?_⟩
      rw [show closeLast (c :: c2 :: rest2) = c :: closeLast (c2 :: rest2) from rfl, h2]
      simp

/-- C8 (amended): a text within the limit passes through as a single chunk
equal to the input; a longer text that ends inside an open code fence (the
per-paragraph odd-tick toggle ends true) gets a closing fence marker appended
to its final chunk.  Individual earlier chunks are not guaranteed a balanced
fence count. -/
theorem chunk_message_close_fence (text : String) (limit : Nat) :
    (text.length ≤ limit → chunk_message text limit = [text]) ∧
    (limit < text.length → fenceOpenParas (splitParas text.data) = true →
      chunk_message text limit ≠ [] →
      ∃ pre init, chunk_message text limit = init ++ [pre ++ "\n```"]) := by
  constructor
  · intro h
    unfold chunk_message chunkList
    rw [if_pos (show text.data.length ≤ limit from h)]
    rfl
  · intro hlen hfence hne
    unfold chunk_message chunkList at hne ⊢
    rw [if_neg (show ¬ text.data.length ≤ limit from Nat.not_le_of_lt hlen)] at hne ⊢
    dsimp only at hne ⊢
    have hopen : (flushBuf
        ((splitParas text.data).foldl (stepPara limit) ⟨[], [], false⟩)).code_open = true := by
      rw [flushBuf_code_open, foldl_stepPara_code_open]
      exact hfence
    rw [if_pos hopen] at hne ⊢
    by_cases hcs : (flushBuf
        ((splitParas text.data).foldl (stepPara limit) ⟨[], [], false⟩)).chunks = []
    · rw [hcs] at hne
      simp [closeLast] at hne
    · obtain ⟨init, last, _, h2⟩ := closeLast_shape _ hcs
      refine ⟨String.mk last, init.map String.mk, ?_⟩
      rw [h2]
      simp only [List.map_append, List.map_cons, List.map_nil]
      rfl

/-- C8 witness: the close-fence theorem on a concrete unterminated-fence text
over the limit, producing three chunks whose last is fence-closed. -/
theorem chunk_message_close_fence_check :
    (10 < ("```\nabcdefghijklmnopqrstuvw" : String).length ∧
      fenceOpenParas (splitParas ("```\nabcdefghijklmnopqrstuvw" : String).data) = true ∧
      chunk_message "```\nabcdefghijklmnopqrstuvw" 10 ≠ []) ∧
    ∃ pre init, chunk_message "```\nabcdefghijklmnopqrstuvw" 10 = init ++ [pre ++ "\n```"] :=
  ⟨⟨by decide, by decide, by decide⟩,
   (chunk_message_close_fence "```\nabcdefghijklmnopqrstuvw" 10).2
     (by decide) (by decide) (by decide)⟩

/-- C9 (amended): with a positive limit, every chunk except possibly the last
is within the limit, and the last chunk is within `limit + 4` (the four
characters of the defensively appended closing fence). -/
theorem chunk_message_length_bounds (text : String) (limit : Nat) (_hpos : 1 ≤ limit) :
    (∀ c ∈ (chunk_message text limit).dropLast, c.length ≤ limit) ∧
    (∀ c ∈ chunk_message text limit, c.length ≤ limit + 4) := by
  by_cases hlen : text.data.length ≤ limit
  · unfold chunk_message chunkList
    rw [if_pos hlen]
    constructor
    · intro c hc
      simp [List.dropLast] at hc
    · intro c hc
      rw [show ([text.data].map String.mk) = [text] from rfl] at hc
      rw [List.mem_singleton.mp hc]
      exact Nat.le_trans hlen (Nat.le_add_right limit 4)
  · unfold chunk_message chunkList
    rw [if_neg hlen]
    dsimp only
    have hbound : ChunksBounded limit
        (flushBuf ((splitParas text.data).foldl (stepPara limit) ⟨[], [], false⟩)) :=
      flushBuf_bounded limit _
        (foldl_stepPara_bounded limit (splitParas text.data) ⟨[], [], false⟩
          (splitParas_sep_newlines text.data) ⟨by simp, by simp⟩)
    set st1 := flushBuf ((splitParas text.data).foldl (stepPara limit) ⟨[], [], false⟩)
      with hst1
    by_cases hopen : st1.code_open = true
    · rw [if_pos hopen]
      by_cases hcs : st1.chunks = []
      · rw [hcs]
        exact ⟨by simp [closeLast], by simp [closeLast]⟩
      · obtain ⟨init, last, h1, h2⟩ := closeLast_shape _ hcs
        rw [h2]
        have hinit : ∀ l ∈ init, l.length ≤ limit := by
          intro l hl
          exact hbound.2 l (by rw [h1]; exact List.mem_append_left _ hl)
        have hlast : last.length ≤ limit := by
          refine hbound.2 last ?_
          rw [h1]
          exact List.mem_append_right _ (List.mem_singleton.mpr rfl)
        constructor
        · intro c hc
          rw [List.map_append, List.map_cons, List.map_nil, List.dropLast_concat] at hc
          obtain ⟨l, hl, rfl⟩ := List.mem_map.mp hc
          exact hinit l hl
        · intro c hc
          rw [List.map_append, List.map_cons, List.map_nil] at hc
          rcases List.mem_append.mp hc with hcl | hcl
          · obtain ⟨l, hl, rfl⟩ := List.mem_map.mp hcl
            exact Nat.le_trans (hinit l hl) (Nat.le_add_right limit 4)
          · rw [List.mem_singleton.mp hcl]
            show (last ++ ('\n' :: '`' :: '`' :: '`' :: [])).length ≤ limit + 4
            rw [List.length_append]
            have h4 : ('\n' :: '`' :: '`' :: '`' :: ([] : List Char)).length = 4 := rfl
            omega
    · rw [if_neg hopen]
      constructor
      · intro c hc
        have hc2 : c ∈ st1.chunks.map String.mk :=
          (List.dropLast_sublist (st1.chunks.map String.mk)).subset hc
        obtain ⟨l, hl, rfl⟩ := List.mem_map.mp hc2
        exact hbound.2 l hl
      · intro c hc
        obtain ⟨l, hl, rfl⟩ := List.mem_map.mp hc
        exact Nat.le_trans (hbound.2 l hl) (Nat.le_add_right limit 4)

/-- C9 witness: the bound theorem on a concrete over-limit text with
`limit = 10`: the first chunk stays within 10 and the closed final chunk
within 14. -/
theorem chunk_message_length_bounds_check :
    1 ≤ 10 ∧
    (∀ c ∈ (chunk_message "```\nuvwxyzabcdefgh" 10).dropLast, c.length ≤ 10) ∧
    (∀ c ∈ chunk_message "```\nuvwxyzabcdefgh" 10, c.length ≤ 10 + 4) :=
  ⟨by decide,
   (chunk_message_length_bounds "```\nuvwxyzabcdefgh" 10 (by decide)).1,
   (chunk_message_length_bounds "```\nuvwxyzabcdefgh" 10 (by decide)).2⟩
